import Mathlib

/-!
Verification of `extract_datetime.py` (image-filename timestamp extraction,
weekday/hour aggregation, summary reporting and CSV export).

The Python source is shallowly embedded below:
* `datetime(...)` construction (CPython range checks, proleptic Gregorian
  calendar, `weekday()`) is modelled by `datetime_new` / `weekday`;
* `re.match(r'ann-img_(\d8)-(\d6)', filename)` is modelled by
  `re_match_ann_img` over `List Char` (the fixed pattern compiled to a
  sequence of literal/digit-run expectations, anchored at the start);
  `\d` is modelled as an ASCII digit;
* printing to stdout is modelled as returning a list of diagnostic lines;
* the filesystem is modelled by `Folder` (directory entry names in listing
  order, plus which entry names are subdirectories); a nonexistent folder
  is `Option.none`;
* Python `dict` / `defaultdict(int)` is modelled as an insertion-ordered
  association list (`bumpA` appends new keys, updates existing ones in
  place), matching CPython's iteration order; `max(d, key=d.get)` /
  `min(d, key=d.get)` are `argmaxFirst` / `argminFirst` (first key
  attaining the extreme value wins, as CPython replaces only on a strict
  comparison);
* `strftime('%Y-%m-%d')` / `('%H:%M:%S')` are `formatDate` / `formatTime`
  (two-digit zero padding for month/day/hour/minute/second; the year as a
  plain decimal, as glibc renders `%Y`).
-/

/-- A `datetime.datetime` value: the validated calendar fields. -/
structure DateTime where
  year : Nat
  month : Nat
  day : Nat
  hour : Nat
  minute : Nat
  second : Nat
deriving DecidableEq, Repr

/-- Gregorian leap-year rule, as in CPython `datetime._is_leap`. -/
def isLeapYear (y : Nat) : Bool :=
  y % 4 == 0 && (y % 100 != 0 || y % 400 == 0)

/-- Days in a month, as in CPython `datetime._days_in_month`. -/
def daysInMonth (y m : Nat) : Nat :=
  if m == 2 then (if isLeapYear y then 29 else 28)
  else if m == 4 || m == 6 || m == 9 || m == 11 then 30
  else 31

/-- CPython `datetime(year, month, day, hour, minute, second)`: the range
checks performed by the constructor, in CPython's order; a failed check
raises `ValueError` (modelled as `Except.error` with the CPython message). -/
def datetime_new (y m d h mi s : Nat) : Except String DateTime :=
  if y < 1 || 9999 < y then .error ("year " ++ toString y ++ " is out of range")
  else if m < 1 || 12 < m then .error "month must be in 1..12"
  else if d < 1 || daysInMonth y m < d then .error "day is out of range for month"
  else if 23 < h then .error "hour must be in 0..23"
  else if 59 < mi then .error "minute must be in 0..59"
  else if 59 < s then .error "second must be in 0..59"
  else .ok ⟨y, m, d, h, mi, s⟩

/-- Days in all years strictly before year `y` in the proleptic Gregorian
calendar (CPython `datetime._days_before_year`). -/
def daysBeforeYear (y : Nat) : Nat :=
  (y - 1) * 365 + (y - 1) / 4 - (y - 1) / 100 + (y - 1) / 400

/-- Days in the months of year `y` strictly before month `m`
(CPython `datetime._days_before_month`). -/
def daysBeforeMonth (y m : Nat) : Nat :=
  ((List.range (m - 1)).map (fun i => daysInMonth y (i + 1))).sum

/-- `date.toordinal()`: day number with 0001-01-01 as day 1. -/
def toOrdinal (dt : DateTime) : Nat :=
  daysBeforeYear dt.year + daysBeforeMonth dt.year dt.month + dt.day

/-- `datetime.weekday()`: 0 = Monday .. 6 = Sunday. -/
def weekday (dt : DateTime) : Nat :=
  (toOrdinal dt + 6) % 7

/-- Zero-pad a number to two digits, as `%m`, `%d`, `%H`, `%M`, `%S` do. -/
def pad2 (n : Nat) : String :=
  if n < 10 then "0" ++ toString n else toString n

/-- `dt.strftime('%Y-%m-%d')`. -/
def formatDate (dt : DateTime) : String :=
  toString dt.year ++ "-" ++ pad2 dt.month ++ "-" ++ pad2 dt.day

/-- `dt.strftime('%H:%M:%S')`. -/
def formatTime (dt : DateTime) : String :=
  pad2 dt.hour ++ ":" ++ pad2 dt.minute ++ ":" ++ pad2 dt.second

/-- `dt.strftime('%Y-%m-%d %H:%M:%S')`, as used for the CSV `datetime` column. -/
def formatDateTimeSec (dt : DateTime) : String :=
  formatDate dt ++ " " ++ formatTime dt

/-- The dictionary returned by `extract_datetime_from_filename` on success. -/
structure ParsedRecord where
  filename : String
  date : Nat × Nat × Nat
  time : Nat × Nat × Nat
  datetime : DateTime
  date_str : String
  time_str : String
deriving DecidableEq, Repr

/-- Match a literal character sequence at the head of the input, returning
the rest (one step of the compiled pattern `ann-img_(\d8)-(\d6)`). -/
def expectLit : List Char → List Char → Option (List Char)
  | [], s => some s
  | _ :: _, [] => none
  | p :: ps, c :: cs => if c = p then expectLit ps cs else none

/-- Match exactly `n` ASCII digits at the head of the input, returning the
digit run and the rest (the `\d{n}` steps of the compiled pattern). -/
def takeDigits : Nat → List Char → Option (List Char × List Char)
  | 0, s => some ([], s)
  | _ + 1, [] => none
  | n + 1, c :: cs =>
    if c.isDigit then (takeDigits n cs).map (fun p => (c :: p.1, p.2)) else none

/-- `re.match(r'ann-img_(\d8)-(\d6)', s)`: anchored at the start, trailing
characters unconstrained; returns the two capture groups. -/
def re_match_ann_img (s : List Char) : Option (List Char × List Char) :=
  (expectLit "ann-img_".data s).bind (fun s1 =>
    (takeDigits 8 s1).bind (fun p2 =>
      (expectLit ['-'] p2.2).bind (fun s3 =>
        (takeDigits 6 s3).map (fun p4 => (p2.1, p4.1)))))

/-- Declarative reading of the structural pattern: at least 23 characters,
the literal `ann-img_`, then 8 digits, `-`, then 6 digits. -/
def structuralMatchL (cs : List Char) : Bool :=
  decide (23 ≤ cs.length) &&
  cs.take 8 == "ann-img_".data &&
  ((cs.drop 8).take 8).all Char.isDigit &&
  (cs.drop 16).take 1 == ['-'] &&
  ((cs.drop 17).take 6).all Char.isDigit

/-- Whether a filename starts with `ann-img_`, 8 digits, `-`, 6 digits. -/
def structuralMatch (f : String) : Bool :=
  structuralMatchL f.data

/-- Numeric value of an ASCII digit character. -/
def digitVal (c : Char) : Nat := c.toNat - '0'.toNat

/-- `int(...)` on a run of decimal digit characters. -/
def decodeDigits (ds : List Char) : Nat :=
  ds.foldl (fun a c => 10 * a + digitVal c) 0

/-- `extract_datetime_from_filename`, with the `print` diagnostics of its
`except ValueError` branch made explicit as the second component. -/
def extract_datetime_core (filename : String) : Option ParsedRecord × List String :=
  match re_match_ann_img filename.data with
  | none => (none, [])
  | some (date_code, time_code) =>
    let year := decodeDigits (date_code.take 4)
    let month := decodeDigits ((date_code.drop 4).take 2)
    let day := decodeDigits (date_code.drop 6)
    let hour := decodeDigits (time_code.take 2)
    let minute := decodeDigits ((time_code.drop 2).take 2)
    let second := decodeDigits (time_code.drop 4)
    match datetime_new year month day hour minute second with
    | .ok dt =>
      (some { filename := filename
              date := (dt.year, dt.month, dt.day)
              time := (dt.hour, dt.minute, dt.second)
              datetime := dt
              date_str := formatDate dt
              time_str := formatTime dt },
       [])
    | .error e => (none, ["Error parsing " ++ filename ++ ": " ++ e])

/-- The return value of `extract_datetime_from_filename`. -/
def extract_datetime_from_filename (filename : String) : Option ParsedRecord :=
  (extract_datetime_core filename).1

/-- An existing directory: its entry names in listing order, and which of
those names are subdirectories (`os.path.isdir` on the joined path). -/
structure Folder where
  entries : List String
  dirs : List String
deriving DecidableEq, Repr

/-- Lexicographic comparison of character sequences by code point: Python's
`str` ordering, as used by `sorted(os.listdir(...))`. -/
def lexLe : List Char → List Char → Bool
  | [], _ => true
  | _ :: _, [] => false
  | a :: as, b :: bs => if a = b then lexLe as bs else decide (a < b)

/-- The ordering relation `sorted` sorts filenames by. -/
def strLeR (a b : String) : Prop := lexLe a.data b.data = true

instance : DecidableRel strLeR :=
  fun a b => inferInstanceAs (Decidable (lexLe a.data b.data = true))

/-- `read_images_from_folder`: `Option.none` models a path that is not an
existing directory. Entries are sorted (`sorted(os.listdir(...))`),
subdirectories skipped, and the parser applied to each remaining name,
keeping successes in order; the second component collects the printed
error/diagnostic lines in the order the loop would print them. -/
def read_images_from_folder (folder_path : String) :
    Option Folder → List ParsedRecord × List String
  | none => ([], ["Error: Folder '" ++ folder_path ++ "' does not exist"])
  | some folder =>
    let files :=
      (List.insertionSort strLeR folder.entries).filter (fun n => !folder.dirs.contains n)
    (files.filterMap extract_datetime_from_filename,
     files.flatMap (fun n => (extract_datetime_core n).2))

/-- The weekday of a record's `datetime`, as used by the aggregator. -/
def weekdayOf (r : ParsedRecord) : Nat := weekday r.datetime

/-- `d[k] += 1` on a `defaultdict(int)` modelled as an insertion-ordered
association list: an existing key is updated in place, a new key appended. -/
def bumpA : List (Nat × Nat) → Nat → List (Nat × Nat)
  | [], k => [(k, 1)]
  | (k', v) :: rest, k =>
    if k = k' then (k', v + 1) :: rest else (k', v) :: bumpA rest k

/-- `d[w][h] += 1` on a `defaultdict(lambda: defaultdict(int))`. -/
def bumpNested : List (Nat × List (Nat × Nat)) → Nat → Nat →
    List (Nat × List (Nat × Nat))
  | [], w, h => [(w, [(h, 1)])]
  | (w', inner) :: rest, w, h =>
    if w = w' then (w', bumpA inner h) :: rest
    else (w', inner) :: bumpNested rest w h

/-- `d.get(k, 0)` on the association-list model of `defaultdict(int)`. -/
def getVal : List (Nat × Nat) → Nat → Nat
  | [], _ => 0
  | (k', v) :: rest, k => if k = k' then v else getVal rest k

/-- Look up an inner dictionary by its outer key. -/
def getInner : List (Nat × List (Nat × Nat)) → Nat → Option (List (Nat × Nat))
  | [], _ => none
  | (k', v) :: rest, k => if k = k' then some v else getInner rest k

/-- `sum(d.values())`. -/
def sumVals (l : List (Nat × Nat)) : Nat :=
  (l.map (fun kv => kv.2)).sum

/-- Sum of all counts of a nested weekday→hour→count dictionary. -/
def sumNested (l : List (Nat × List (Nat × Nat))) : Nat :=
  (l.map (fun kv => sumVals kv.2)).sum

/-- One loop iteration of `analyze_by_weekday_and_time`. -/
def aggStep (st : List (Nat × Nat) × List (Nat × List (Nat × Nat)))
    (r : ParsedRecord) : List (Nat × Nat) × List (Nat × List (Nat × Nat)) :=
  (bumpA st.1 (weekdayOf r), bumpNested st.2 (weekdayOf r) r.datetime.hour)

/-- The dictionary returned by `analyze_by_weekday_and_time`. -/
structure Analysis where
  weekday_names : List String
  weekday_counts : List (Nat × Nat)
  weekday_hours : List (Nat × List (Nat × Nat))
deriving DecidableEq, Repr

/-- `analyze_by_weekday_and_time`. -/
def analyze_by_weekday_and_time (datetime_list : List ParsedRecord) : Analysis :=
  let st := datetime_list.foldl aggStep ([], [])
  { weekday_names := ["Monday", "Tuesday", "Wednesday", "Thursday",
                      "Friday", "Saturday", "Sunday"]
    weekday_counts := st.1
    weekday_hours := st.2 }

/-- `max(d, key=d.get)` together with the value: the first key (in
iteration order) attaining the maximal value, as CPython's `max` replaces
the running best only on a strictly greater comparison. -/
def argmaxFirst : List (Nat × Nat) → Option (Nat × Nat)
  | [] => none
  | kv :: rest =>
    match argmaxFirst rest with
    | none => some kv
    | some b => some (if kv.2 < b.2 then b else kv)

/-- `min(d, key=d.get)` together with the value: the first key attaining
the minimal value. -/
def argminFirst : List (Nat × Nat) → Option (Nat × Nat)
  | [] => none
  | kv :: rest =>
    match argminFirst rest with
    | none => some kv
    | some b => some (if b.2 < kv.2 then b else kv)

/-- `busiest_day = max(weekday_counts, key=weekday_counts.get)` paired with
`weekday_counts[busiest_day]`, as printed by `print_analysis_summary`. -/
def busiest_weekday (datetime_list : List ParsedRecord) : Option (Nat × Nat) :=
  argmaxFirst (analyze_by_weekday_and_time datetime_list).weekday_counts

/-- `quietest_day = min(weekday_counts, key=weekday_counts.get)` paired with
`weekday_counts[quietest_day]`. -/
def quietest_weekday (datetime_list : List ParsedRecord) : Option (Nat × Nat) :=
  argminFirst (analyze_by_weekday_and_time datetime_list).weekday_counts

/-- Total number of records on weekday `w` (0 if none). -/
def weekdayTotal (datetime_list : List ParsedRecord) (w : Nat) : Nat :=
  getVal (analyze_by_weekday_and_time datetime_list).weekday_counts w

/-- `weekday_hours[weekday]` as read by section 2 of
`print_analysis_summary` (empty dictionary if the weekday is absent). -/
def hrsOf (datetime_list : List ParsedRecord) (w : Nat) : List (Nat × Nat) :=
  (getInner (analyze_by_weekday_and_time datetime_list).weekday_hours w).getD []

/-- Number of records on weekday `w` at hour `h`. -/
def hourCount (datetime_list : List ParsedRecord) (w h : Nat) : Nat :=
  getVal (hrsOf datetime_list w) h

/-- Section 2 of `print_analysis_summary` (`PEAK HOURS BY WEEKDAY`): one
line per weekday with a nonempty hour dictionary, carrying the weekday, the
peak hour, its count, and the sorted list of active hours. -/
def peak_hour_lines (datetime_list : List ParsedRecord) :
    List (Nat × Nat × Nat × List Nat) :=
  (List.range 7).filterMap (fun w =>
    let hrs := hrsOf datetime_list w
    match argmaxFirst hrs with
    | none => none
    | some (ph, pc) =>
      some (w, ph, pc,
        ((hrs.filter (fun kv => 0 < kv.2)).map (fun kv => kv.1)).insertionSort (· ≤ ·)))

/-- Quote a CSV field as `csv.writer` does under `QUOTE_MINIMAL`. -/
def csvField (s : String) : String :=
  if s.data.any (fun c => c = ',' || c = '"' || c = '\r' || c = '\n') then
    "\"" ++ String.mk (s.data.flatMap (fun c => if c = '"' then ['"', '"'] else [c])) ++ "\""
  else s

/-- One data row of the CSV export (`filename, date, time, datetime`). -/
def csv_row (r : ParsedRecord) : String :=
  csvField r.filename ++ "," ++ csvField r.date_str ++ "," ++
  csvField r.time_str ++ "," ++ csvField (formatDateTimeSec r.datetime)

/-- The CSV export's lines: the header then one row per record. -/
def csv_lines (datetime_list : List ParsedRecord) : List String :=
  "filename,date,time,datetime" :: datetime_list.map csv_row

/-- The bytes of `image_datetime.csv` (each line terminated by CRLF, the
`csv` module's default line terminator). -/
def csv_content (datetime_list : List ParsedRecord) : String :=
  String.join ((csv_lines datetime_list).map (fun l => l ++ "\r\n"))

/-- The `__main__` pipeline up to its deterministic data artifacts: the
parsed records, the aggregation, and the CSV lines. -/
def run_pipeline (folder_path : String) (fs : Option Folder) :
    List ParsedRecord × Analysis × List String :=
  let rs := (read_images_from_folder folder_path fs).1
  (rs, analyze_by_weekday_and_time rs, csv_lines rs)

/-- Structural invariant of the nested weekday→hour dictionary: outer keys
are distinct, and every inner dictionary has distinct keys, is nonempty, and
holds only positive counts. -/
def NestedOK (l : List (Nat × List (Nat × Nat))) : Prop :=
  (l.map Prod.fst).Nodup ∧
  ∀ p ∈ l, (p.2.map Prod.fst).Nodup ∧ p.2 ≠ [] ∧ ∀ q ∈ p.2, 0 < q.2

/-- A one-record list (a Monday record), exercising the busiest/quietest
weekday selection. -/
def rsC5 : List ParsedRecord :=
  (extract_datetime_from_filename "ann-img_20240115-143052_x.jpg").toList

/-- The directory contents used to witness the folder-reader claims. -/
def folderA : Folder :=
  { entries := ["ann-img_20240116-090000.jpg", "ann-img_20240115-143052_x.jpg", "sub"]
    dirs := ["sub"] }

/-- `folderA` with its entries listed in a different order. -/
def folderB : Folder :=
  { entries := ["ann-img_20240115-143052_x.jpg", "ann-img_20240116-090000.jpg", "sub"]
    dirs := ["sub"] }

/-- Records of a three-file folder (two Monday records at 08 and 14, one
Tuesday record at 09), exercising the peak-hour report. -/
def rsC6 : List ParsedRecord :=
  (read_images_from_folder "images" (some
    { entries := ["ann-img_20240115-083000.jpg", "ann-img_20240115-143052.jpg",
                  "ann-img_20240116-090000.jpg"]
      dirs := [] })).1

theorem expectLit_eq (p : List Char) : ∀ s : List Char,
    expectLit p s = if s.take p.length = p then some (s.drop p.length) else none := by
  induction p with
  | nil => intro s; simp [expectLit]
  | cons c p ih =>
    intro s
    cases s with
    | nil => simp [expectLit]
    | cons a s =>
      simp only [expectLit, List.length_cons, List.take_succ_cons, List.drop_succ_cons, ih]
      by_cases hac : a = c
      · subst hac; simp
      · simp [hac, Ne.symm hac]

theorem takeDigits_eq (n : Nat) : ∀ s : List Char,
    takeDigits n s =
      if n ≤ s.length ∧ (s.take n).all Char.isDigit then some (s.take n, s.drop n)
      else none := by
  induction n with
  | zero => intro s; simp [takeDigits]
  | succ n ih =>
    intro s
    cases s with
    | nil => simp [takeDigits]
    | cons c s =>
      simp only [takeDigits, List.length_cons, List.take_succ_cons, List.drop_succ_cons,
        List.all_cons, ih, Nat.succ_le_succ_iff, Bool.and_eq_true]
      by_cases hc : c.isDigit
      · simp only [hc, true_and]
        by_cases h : n ≤ s.length ∧ (s.take n).all Char.isDigit = true
        · simp [h, h.1, h.2]
        · rw [if_neg h, if_neg h]
          rfl
      · simp [hc]

theorem structuralMatchL_iff {cs : List Char} :
    structuralMatchL cs = true ↔
      23 ≤ cs.length ∧ cs.take 8 = "ann-img_".data ∧
      ((cs.drop 8).take 8).all Char.isDigit = true ∧
      (cs.drop 16).take 1 = ['-'] ∧
      ((cs.drop 17).take 6).all Char.isDigit = true := by
  simp [structuralMatchL, Bool.and_eq_true, decide_eq_true_iff, and_assoc]

theorem re_match_of_structural {cs : List Char} (hsm : structuralMatchL cs = true) :
    re_match_ann_img cs = some ((cs.drop 8).take 8, (cs.drop 17).take 6) := by
  obtain ⟨hlen, htk, hd1, hdash, hd2⟩ := structuralMatchL_iff.mp hsm
  have hlit : ("ann-img_".data).length = 8 := rfl
  have e1 : expectLit "ann-img_".data cs = some (cs.drop 8) := by
    rw [expectLit_eq, hlit, if_pos htk]
  have e2 : takeDigits 8 (cs.drop 8) = some ((cs.drop 8).take 8, cs.drop 16) := by
    rw [takeDigits_eq, if_pos]
    · rw [List.drop_drop]
    · refine ⟨?_, hd1⟩
      rw [List.length_drop]
      omega
  have e3 : expectLit ['-'] (cs.drop 16) = some (cs.drop 17) := by
    rw [expectLit_eq]
    simp only [List.length_singleton]
    rw [if_pos hdash, List.drop_drop]
  have e4 : takeDigits 6 (cs.drop 17) = some ((cs.drop 17).take 6, cs.drop 23) := by
    rw [takeDigits_eq, if_pos]
    · rw [List.drop_drop]
    · refine ⟨?_, hd2⟩
      rw [List.length_drop]
      omega
  simp [re_match_ann_img, e1, e2, e3, e4]

theorem structural_of_re_match {cs : List Char} {p : List Char × List Char}
    (hre : re_match_ann_img cs = some p) : structuralMatchL cs = true := by
  rw [re_match_ann_img] at hre
  simp only [expectLit_eq, takeDigits_eq, Option.bind_eq_some, Option.map_eq_some,
    Option.ite_none_right_eq_some, Option.some.injEq, List.length_cons, List.length_nil,
    List.length_singleton] at hre
  obtain ⟨s1, ⟨htk, hs1⟩, p2, ⟨⟨hlen2, hdig2⟩, hp2⟩, s3, ⟨hdash, hs3⟩, hin⟩ := hre
  subst hs1
  subst hp2
  simp only [List.drop_drop] at hdash hs3 hin
  subst hs3
  simp only [List.drop_drop] at hin
  have hcond : ¬ (6 ≤ ((cs.drop (1 + (8 + 8))).length) ∧
      ((cs.drop (1 + (8 + 8))).take 6).all Char.isDigit = true) → False := by
    intro hn
    rw [if_neg hn] at hin
    simp at hin
  by_cases h6 : 6 ≤ ((cs.drop (1 + (8 + 8))).length) ∧
      ((cs.drop (1 + (8 + 8))).take 6).all Char.isDigit = true
  · refine structuralMatchL_iff.mpr ⟨?_, ?_, ?_, ?_, ?_⟩
    · have := h6.1
      rw [List.length_drop] at this
      omega
    · simpa using htk
    · simpa using hdig2
    · show (cs.drop 16).take 1 = ['-']
      have : (8 : Nat) + 8 = 16 := rfl
      rw [← this]
      exact hdash
    · show ((cs.drop 17).take 6).all Char.isDigit = true
      have : (1 : Nat) + (8 + 8) = 17 := rfl
      rw [← this]
      exact h6.2
  · exact absurd (hcond (fun hn => h6 hn)) (by simp)


theorem re_match_eq (cs : List Char) :
    re_match_ann_img cs =
      if structuralMatchL cs then some ((cs.drop 8).take 8, (cs.drop 17).take 6)
      else none := by
  cases hsm : structuralMatchL cs
  · cases hre : re_match_ann_img cs with
    | none => simp
    | some p => rw [structural_of_re_match hre] at hsm; cases hsm
  · simp [re_match_of_structural hsm]

theorem re_match_append {u : List Char} (hu : u.length = 23) (v : List Char) :
    re_match_ann_img (u ++ v) = re_match_ann_img u := by
  have h8 : (u ++ v).drop 8 = u.drop 8 ++ v := List.drop_append_of_le_length (by omega)
  have h16 : (u ++ v).drop 16 = u.drop 16 ++ v := List.drop_append_of_le_length (by omega)
  have h17 : (u ++ v).drop 17 = u.drop 17 ++ v := List.drop_append_of_le_length (by omega)
  have t8 : (u.drop 8 ++ v).take 8 = (u.drop 8).take 8 :=
    List.take_append_of_le_length (by simp [List.length_drop]; omega)
  have t16 : (u.drop 16 ++ v).take 1 = (u.drop 16).take 1 :=
    List.take_append_of_le_length (by simp [List.length_drop]; omega)
  have t17 : (u.drop 17 ++ v).take 6 = (u.drop 17).take 6 :=
    List.take_append_of_le_length (by simp [List.length_drop]; omega)
  have hsm : structuralMatchL (u ++ v) = structuralMatchL u := by
    simp only [structuralMatchL, List.length_append, h8, h16, h17, t8, t16, t17,
      List.take_append_of_le_length (show 8 ≤ u.length by omega)]
    have hd : decide (23 ≤ u.length + v.length) = decide (23 ≤ u.length) := by
      simp only [decide_eq_decide]
      omega
    rw [hd]
  rw [re_match_eq, re_match_eq, hsm, h8, h17, t8, t17]


theorem extract_error_spec {f : String} {dc tc : List Char} {e : String}
    (hre : re_match_ann_img f.data = some (dc, tc))
    (herr : datetime_new (decodeDigits (dc.take 4)) (decodeDigits ((dc.drop 4).take 2))
        (decodeDigits (dc.drop 6)) (decodeDigits (tc.take 2))
        (decodeDigits ((tc.drop 2).take 2)) (decodeDigits (tc.drop 4)) = .error e) :
    extract_datetime_core f = (none, ["Error parsing " ++ f ++ ": " ++ e]) := by
  unfold extract_datetime_core
  rw [hre]
  dsimp only
  rw [herr]

theorem extract_some_spec {f : String} {r : ParsedRecord}
    (h : extract_datetime_from_filename f = some r) :
    r.filename = f ∧
    r.date = (r.datetime.year, r.datetime.month, r.datetime.day) ∧
    r.time = (r.datetime.hour, r.datetime.minute, r.datetime.second) ∧
    r.date_str = formatDate r.datetime ∧
    r.time_str = formatTime r.datetime := by
  unfold extract_datetime_from_filename extract_datetime_core at h
  split at h
  · simp at h
  · dsimp only at h
    split at h
    · simp only [Option.some.injEq] at h
      subst h
      simp
    · simp at h


/-- C1: any filename that does not start with the literal `ann-img_`, exactly
8 digits, a literal `-`, and exactly 6 digits yields no record; and for
filenames with that 23-character structure, characters after the 6-digit time
code are ignored by the structural match. -/
theorem c1_structural_mismatch_no_record (f : String) :
    (structuralMatch f = false → extract_datetime_from_filename f = none) ∧
    (∀ u v : List Char, u.length = 23 → re_match_ann_img (u ++ v) = re_match_ann_img u) := by
  constructor
  · intro h
    have h' : structuralMatchL f.data = false := h
    unfold extract_datetime_from_filename extract_datetime_core
    rw [re_match_eq, h']
    simp
  · intro u v hu
    exact re_match_append hu v

theorem c1_witness :
    (structuralMatch "IMG_20240115.jpg" = false ∧
      extract_datetime_from_filename "IMG_20240115.jpg" = none) ∧
    (("ann-img_20240115-143052".data).length = 23 ∧
      re_match_ann_img ("ann-img_20240115-143052".data ++ "_x.jpg".data) =
        re_match_ann_img ("ann-img_20240115-143052".data)) :=
  ⟨⟨by decide, (c1_structural_mismatch_no_record "IMG_20240115.jpg").1 (by decide)⟩,
   ⟨by decide, (c1_structural_mismatch_no_record "IMG_20240115.jpg").2
      ("ann-img_20240115-143052".data) ("_x.jpg".data) (by decide)⟩⟩

/-- C2: a filename that matches the structural pattern but decodes to an
invalid calendar date/time produces a diagnostic line naming the filename and
no record; the `ValueError` is not propagated. -/
theorem c2_invalid_calendar_diagnostic (f : String) (dc tc : List Char) (e : String)
    (hre : re_match_ann_img f.data = some (dc, tc))
    (herr : datetime_new (decodeDigits (dc.take 4)) (decodeDigits ((dc.drop 4).take 2))
        (decodeDigits (dc.drop 6)) (decodeDigits (tc.take 2))
        (decodeDigits ((tc.drop 2).take 2)) (decodeDigits (tc.drop 4)) = .error e) :
    extract_datetime_from_filename f = none ∧
    (extract_datetime_core f).2 = ["Error parsing " ++ f ++ ": " ++ e] := by
  have h := extract_error_spec hre herr
  unfold extract_datetime_from_filename
  rw [h]
  exact ⟨rfl, rfl⟩

theorem c2_witness :
    re_match_ann_img ("ann-img_20241301-000000").data =
      some ("20241301".data, "000000".data) ∧
    datetime_new (decodeDigits ("20241301".data.take 4))
        (decodeDigits (("20241301".data.drop 4).take 2))
        (decodeDigits ("20241301".data.drop 6))
        (decodeDigits ("000000".data.take 2))
        (decodeDigits (("000000".data.drop 2).take 2))
        (decodeDigits ("000000".data.drop 4)) = .error "month must be in 1..12" ∧
    extract_datetime_from_filename "ann-img_20241301-000000" = none ∧
    (extract_datetime_core "ann-img_20241301-000000").2 =
      ["Error parsing ann-img_20241301-000000: month must be in 1..12"] :=
  ⟨by decide, by rfl,
   c2_invalid_calendar_diagnostic "ann-img_20241301-000000" ("20241301".data)
     ("000000".data) "month must be in 1..12" (by decide) (by rfl)⟩

/-- C9: `extract_datetime_from_filename` is total: every filename yields
either no record or a record carrying the input filename; and on the
construction-failure branch the `ValueError` is caught, producing `none`
rather than escaping. -/
theorem c9_extract_total (f : String) :
    (extract_datetime_from_filename f = none ∨
      ∃ r, extract_datetime_from_filename f = some r ∧ r.filename = f) ∧
    (∀ dc tc e, re_match_ann_img f.data = some (dc, tc) →
      datetime_new (decodeDigits (dc.take 4)) (decodeDigits ((dc.drop 4).take 2))
          (decodeDigits (dc.drop 6)) (decodeDigits (tc.take 2))
          (decodeDigits ((tc.drop 2).take 2)) (decodeDigits (tc.drop 4)) = .error e →
      extract_datetime_from_filename f = none) := by
  constructor
  · cases h : extract_datetime_from_filename f with
    | none => exact Or.inl rfl
    | some r => exact Or.inr ⟨r, rfl, (extract_some_spec h).1⟩
  · intro dc tc e hre herr
    unfold extract_datetime_from_filename
    rw [extract_error_spec hre herr]

theorem c9_witness :
    (extract_datetime_from_filename "ann-img_20241301-000000" = none ∨
      ∃ r, extract_datetime_from_filename "ann-img_20241301-000000" = some r ∧
        r.filename = "ann-img_20241301-000000") ∧
    extract_datetime_from_filename "ann-img_20241301-000000" = none :=
  ⟨(c9_extract_total "ann-img_20241301-000000").1,
   (c9_extract_total "ann-img_20241301-000000").2 ("20241301".data) ("000000".data)
     "month must be in 1..12" (by decide) (by rfl)⟩

/-- C10: every record returned by the parser is internally consistent: its
`date` and `time` fields are the components of its `datetime`, `date_str` and
`time_str` are the `%Y-%m-%d` and `%H:%M:%S` renderings of that datetime, and
`filename` is the unmodified input. -/
theorem c10_record_internal_consistency (f : String) (r : ParsedRecord)
    (h : extract_datetime_from_filename f = some r) :
    r.filename = f ∧
    r.date = (r.datetime.year, r.datetime.month, r.datetime.day) ∧
    r.time = (r.datetime.hour, r.datetime.minute, r.datetime.second) ∧
    r.date_str = formatDate r.datetime ∧
    r.time_str = formatTime r.datetime :=
  extract_some_spec h

theorem c10_witness :
    ∃ r, extract_datetime_from_filename "ann-img_20240115-143052_x.jpg" = some r ∧
      (r.filename = "ann-img_20240115-143052_x.jpg" ∧
       r.date = (r.datetime.year, r.datetime.month, r.datetime.day) ∧
       r.time = (r.datetime.hour, r.datetime.minute, r.datetime.second) ∧
       r.date_str = formatDate r.datetime ∧
       r.time_str = formatTime r.datetime) := by
  refine ⟨{ filename := "ann-img_20240115-143052_x.jpg"
            date := (2024, 1, 15)
            time := (14, 30, 52)
            datetime := ⟨2024, 1, 15, 14, 30, 52⟩
            date_str := "2024-01-15"
            time_str := "14:30:52" }, by decide, ?_⟩
  exact c10_record_internal_consistency "ann-img_20240115-143052_x.jpg" _ (by decide)


/-- C7: a path that does not name an existing directory yields an error
message and an empty record list, with no exception. -/
theorem c7_missing_directory (folder_path : String) :
    read_images_from_folder folder_path none =
      ([], ["Error: Folder '" ++ folder_path ++ "' does not exist"]) := rfl

theorem getVal_bumpA (k k' : Nat) : ∀ l : List (Nat × Nat),
    getVal (bumpA l k) k' = getVal l k' + if k' = k then 1 else 0 := by
  intro l
  induction l with
  | nil =>
    by_cases h : k' = k <;> simp [bumpA, getVal, h]
  | cons kv rest ih =>
    obtain ⟨a, b⟩ := kv
    by_cases hka : k = a
    · subst hka
      by_cases h : k' = k <;> simp [bumpA, getVal, h]
    · by_cases h : k' = a
      · subst h
        have hne : k' ≠ k := fun hc => hka hc.symm
        simp [bumpA, getVal, if_neg hka, hne]
      · simp [bumpA, getVal, hka, h, ih]

theorem sumVals_bumpA (k : Nat) : ∀ l : List (Nat × Nat),
    sumVals (bumpA l k) = sumVals l + 1 := by
  intro l
  induction l with
  | nil => simp [bumpA, sumVals]
  | cons kv rest ih =>
    obtain ⟨a, b⟩ := kv
    by_cases hka : k = a
    · simp [bumpA, sumVals, hka]
      omega
    · simp only [bumpA, if_neg hka, sumVals, List.map_cons, List.sum_cons] at ih ⊢
      omega

theorem getInner_bumpNested (w h w' : Nat) : ∀ l : List (Nat × List (Nat × Nat)),
    getInner (bumpNested l w h) w' =
      if w' = w then some (bumpA ((getInner l w).getD []) h) else getInner l w' := by
  intro l
  induction l with
  | nil =>
    by_cases hw : w' = w <;> simp [bumpNested, getInner, hw, bumpA]
  | cons kv rest ih =>
    obtain ⟨a, inner⟩ := kv
    by_cases hwa : w = a
    · subst hwa
      by_cases hw : w' = w <;> simp [bumpNested, getInner, hw]
    · by_cases hw : w' = a
      · subst hw
        have hne : w' ≠ w := fun hc => hwa hc.symm
        simp [bumpNested, getInner, if_neg hwa, hne]
      · have hgw : getInner ((a, inner) :: rest) w = getInner rest w := by
          simp [getInner, fun hc : w = a => hwa hc]
        simp only [bumpNested, if_neg hwa, getInner, if_neg hw, ih, hgw]

theorem sumNested_bumpNested (w h : Nat) : ∀ l : List (Nat × List (Nat × Nat)),
    sumNested (bumpNested l w h) = sumNested l + 1 := by
  intro l
  induction l with
  | nil => simp [bumpNested, sumNested, sumVals, bumpA]
  | cons kv rest ih =>
    obtain ⟨a, inner⟩ := kv
    by_cases hwa : w = a
    · simp [bumpNested, sumNested, hwa, sumVals_bumpA]
      omega
    · simp only [bumpNested, if_neg hwa, sumNested, List.map_cons, List.sum_cons] at ih ⊢
      omega


theorem agg_counts_sum (rs : List ParsedRecord) :
    ∀ st, sumVals ((rs.foldl aggStep st).1) = sumVals st.1 + rs.length := by
  induction rs with
  | nil => intro st; simp
  | cons r rs ih =>
    intro st
    rw [List.foldl_cons, ih]
    simp [aggStep, sumVals_bumpA]
    omega

theorem agg_hours_sum (rs : List ParsedRecord) :
    ∀ st, sumNested ((rs.foldl aggStep st).2) = sumNested st.2 + rs.length := by
  induction rs with
  | nil => intro st; simp
  | cons r rs ih =>
    intro st
    rw [List.foldl_cons, ih]
    simp [aggStep, sumNested_bumpNested]
    omega

theorem agg_counts_getVal (w : Nat) (rs : List ParsedRecord) :
    ∀ st, getVal ((rs.foldl aggStep st).1) w =
      getVal st.1 w + rs.countP (fun r => weekdayOf r == w) := by
  induction rs with
  | nil => intro st; simp
  | cons r rs ih =>
    intro st
    rw [List.foldl_cons, ih, List.countP_cons]
    simp only [aggStep]
    rw [getVal_bumpA]
    by_cases hw : weekdayOf r = w
    · simp [hw]
      omega
    · have hw' : ¬ (w = weekdayOf r) := fun hc => hw hc.symm
      simp [hw, hw']

theorem agg_hours_getVal (w h : Nat) (rs : List ParsedRecord) :
    ∀ st, getVal ((getInner ((rs.foldl aggStep st).2) w).getD []) h =
      getVal ((getInner st.2 w).getD []) h +
        rs.countP (fun r => weekdayOf r == w && r.datetime.hour == h) := by
  induction rs with
  | nil => intro st; simp
  | cons r rs ih =>
    intro st
    rw [List.foldl_cons, ih, List.countP_cons]
    simp only [aggStep]
    rw [getInner_bumpNested]
    by_cases hw : w = weekdayOf r
    · rw [if_pos hw]
      simp only [Option.getD_some]
      rw [getVal_bumpA, hw]
      by_cases hh : r.datetime.hour = h
      · simp [hh]
        omega
      · have hh' : ¬ (h = r.datetime.hour) := fun hc => hh hc.symm
        simp [hh, hh']
    · rw [if_neg hw]
      have hw' : ¬ (weekdayOf r = w) := fun hc => hw hc.symm
      simp [hw']

/-- C4: each record contributes exactly one increment to the per-weekday and
per-(weekday, hour) counters, keyed by its datetime's weekday (Monday = 0)
and hour; consequently both aggregations sum to the number of records. -/
theorem c4_aggregation_invariant (datetime_list : List ParsedRecord) :
    sumVals (analyze_by_weekday_and_time datetime_list).weekday_counts =
        datetime_list.length ∧
    sumNested (analyze_by_weekday_and_time datetime_list).weekday_hours =
        datetime_list.length ∧
    (∀ w, getVal (analyze_by_weekday_and_time datetime_list).weekday_counts w =
        datetime_list.countP (fun r => weekdayOf r == w)) ∧
    (∀ w h, hourCount datetime_list w h =
        datetime_list.countP (fun r => weekdayOf r == w && r.datetime.hour == h)) := by
  refine ⟨?_, ?_, fun w => ?_, fun w h => ?_⟩
  · rw [analyze_by_weekday_and_time]
    simpa [sumVals] using agg_counts_sum datetime_list ([], [])
  · rw [analyze_by_weekday_and_time]
    simpa [sumNested] using agg_hours_sum datetime_list ([], [])
  · rw [analyze_by_weekday_and_time]
    simpa [getVal] using agg_counts_getVal w datetime_list ([], [])
  · rw [hourCount, hrsOf, analyze_by_weekday_and_time]
    simpa [getInner, getVal] using agg_hours_getVal w h datetime_list ([], [])


theorem argmaxFirst_eq_none {l : List (Nat × Nat)} :
    argmaxFirst l = none ↔ l = [] := by
  cases l with
  | nil => simp [argmaxFirst]
  | cons kv rest =>
    simp only [argmaxFirst]
    cases argmaxFirst rest <;> simp

theorem argminFirst_eq_none {l : List (Nat × Nat)} :
    argminFirst l = none ↔ l = [] := by
  cases l with
  | nil => simp [argminFirst]
  | cons kv rest =>
    simp only [argminFirst]
    cases argminFirst rest <;> simp

theorem argmaxFirst_spec {l : List (Nat × Nat)} {k v : Nat}
    (h : argmaxFirst l = some (k, v)) :
    (k, v) ∈ l ∧ ∀ kv ∈ l, kv.2 ≤ v := by
  induction l generalizing k v with
  | nil => simp [argmaxFirst] at h
  | cons kv rest ih =>
    rw [argmaxFirst] at h
    cases hm : argmaxFirst rest with
    | none =>
      rw [hm] at h
      rw [argmaxFirst_eq_none] at hm
      subst hm
      simp only [Option.some.injEq] at h
      subst h
      simp
    | some b =>
      rw [hm] at h
      obtain ⟨hb, hball⟩ := ih hm
      simp only [Option.some.injEq] at h
      by_cases hlt : kv.2 < b.2
      · rw [if_pos hlt] at h
        subst h
        refine ⟨List.mem_cons_of_mem _ hb, ?_⟩
        intro x hx
        rcases List.mem_cons.mp hx with hx | hx
        · subst hx
          exact Nat.le_of_lt hlt
        · exact hball x hx
      · rw [if_neg hlt] at h
        subst h
        refine ⟨List.mem_cons_self _ _, ?_⟩
        intro x hx
        rcases List.mem_cons.mp hx with hx | hx
        · subst hx
          exact Nat.le_refl _
        · exact Nat.le_trans (hball x hx) (Nat.le_of_not_lt hlt)

theorem argminFirst_spec {l : List (Nat × Nat)} {k v : Nat}
    (h : argminFirst l = some (k, v)) :
    (k, v) ∈ l ∧ ∀ kv ∈ l, v ≤ kv.2 := by
  induction l generalizing k v with
  | nil => simp [argminFirst] at h
  | cons kv rest ih =>
    rw [argminFirst] at h
    cases hm : argminFirst rest with
    | none =>
      rw [hm] at h
      rw [argminFirst_eq_none] at hm
      subst hm
      simp only [Option.some.injEq] at h
      subst h
      simp
    | some b =>
      rw [hm] at h
      obtain ⟨hb, hball⟩ := ih hm
      simp only [Option.some.injEq] at h
      by_cases hlt : b.2 < kv.2
      · rw [if_pos hlt] at h
        subst h
        refine ⟨List.mem_cons_of_mem _ hb, ?_⟩
        intro x hx
        rcases List.mem_cons.mp hx with hx | hx
        · subst hx
          exact Nat.le_of_lt hlt
        · exact hball x hx
      · rw [if_neg hlt] at h
        subst h
        refine ⟨List.mem_cons_self _ _, ?_⟩
        intro x hx
        rcases List.mem_cons.mp hx with hx | hx
        · subst hx
          exact Nat.le_refl _
        · exact Nat.le_trans (Nat.le_of_not_lt hlt) (hball x hx)

theorem argmaxFirst_first {l : List (Nat × Nat)} {k v : Nat}
    (h : argmaxFirst l = some (k, v)) :
    ∃ l1 l2, l = l1 ++ (k, v) :: l2 ∧ ∀ kv ∈ l1, kv.2 < v := by
  induction l generalizing k v with
  | nil => simp [argmaxFirst] at h
  | cons kv rest ih =>
    rw [argmaxFirst] at h
    cases hm : argmaxFirst rest with
    | none =>
      rw [hm] at h
      simp only [Option.some.injEq] at h
      subst h
      exact ⟨[], rest, rfl, by simp⟩
    | some b =>
      rw [hm] at h
      simp only [Option.some.injEq] at h
      by_cases hlt : kv.2 < b.2
      · rw [if_pos hlt] at h
        subst h
        obtain ⟨r1, r2, hr, hall⟩ := ih hm
        refine ⟨kv :: r1, r2, by simp [hr], ?_⟩
        intro x hx
        rcases List.mem_cons.mp hx with hx | hx
        · subst hx
          exact hlt
        · exact hall x hx
      · rw [if_neg hlt] at h
        subst h
        exact ⟨[], rest, rfl, by simp⟩


theorem getVal_mem_of_ne_zero {l : List (Nat × Nat)} {k : Nat}
    (h : getVal l k ≠ 0) : (k, getVal l k) ∈ l := by
  induction l with
  | nil => simp [getVal] at h
  | cons kv rest ih =>
    obtain ⟨a, b⟩ := kv
    by_cases hk : k = a
    · subst hk
      simp [getVal]
    · rw [getVal, if_neg hk] at h ⊢
      exact List.mem_cons_of_mem _ (ih h)

theorem getVal_of_mem_nodup {l : List (Nat × Nat)} {k v : Nat}
    (hnd : (l.map Prod.fst).Nodup) (hm : (k, v) ∈ l) : getVal l k = v := by
  induction l with
  | nil => simp at hm
  | cons kv rest ih =>
    obtain ⟨a, b⟩ := kv
    simp only [List.map_cons, List.nodup_cons] at hnd
    rcases List.mem_cons.mp hm with hx | hx
    · rw [Prod.mk.injEq] at hx
      obtain ⟨hk, hv⟩ := hx
      subst hk
      subst hv
      simp [getVal]
    · have hka : k ≠ a := by
        intro hc
        subst hc
        exact hnd.1 (List.mem_map.mpr ⟨(k, v), hx, rfl⟩)
      rw [getVal, if_neg hka]
      exact ih hnd.2 hx

theorem keys_bumpA (k : Nat) : ∀ l : List (Nat × Nat),
    (bumpA l k).map Prod.fst =
      if k ∈ l.map Prod.fst then l.map Prod.fst else l.map Prod.fst ++ [k] := by
  intro l
  induction l with
  | nil => simp [bumpA]
  | cons kv rest ih =>
    obtain ⟨a, b⟩ := kv
    by_cases hka : k = a
    · subst hka
      simp [bumpA]
    · simp only [bumpA, if_neg hka, List.map_cons, List.mem_cons, ih]
      by_cases hm : k ∈ rest.map Prod.fst
      · simp [hm]
      · simp [hm, hka]

theorem nodup_bumpA {l : List (Nat × Nat)} (k : Nat)
    (h : (l.map Prod.fst).Nodup) : ((bumpA l k).map Prod.fst).Nodup := by
  rw [keys_bumpA]
  by_cases hm : k ∈ l.map Prod.fst
  · simpa [hm] using h
  · simp [hm, List.nodup_append, h]

theorem pos_bumpA {l : List (Nat × Nat)} (k : Nat)
    (h : ∀ q ∈ l, 0 < q.2) : ∀ q ∈ bumpA l k, 0 < q.2 := by
  induction l with
  | nil =>
    intro q hq
    simp only [bumpA, List.mem_singleton] at hq
    subst hq
    exact Nat.zero_lt_one
  | cons kv rest ih =>
    obtain ⟨a, b⟩ := kv
    intro q hq
    by_cases hka : k = a
    · subst hka
      rw [bumpA, if_pos rfl] at hq
      rcases List.mem_cons.mp hq with hx | hx
      · subst hx
        exact Nat.succ_pos _
      · exact h q (List.mem_cons_of_mem _ hx)
    · rw [bumpA, if_neg hka] at hq
      rcases List.mem_cons.mp hq with hx | hx
      · subst hx
        exact h _ (List.mem_cons_self _ _)
      · exact ih (fun q hq => h q (List.mem_cons_of_mem _ hq)) q hx

theorem bumpA_ne_nil (l : List (Nat × Nat)) (k : Nat) : bumpA l k ≠ [] := by
  cases l with
  | nil => simp [bumpA]
  | cons kv rest =>
    obtain ⟨a, b⟩ := kv
    rw [bumpA]
    by_cases hka : k = a <;> simp [hka]


theorem keys_bumpNested (w h : Nat) : ∀ l : List (Nat × List (Nat × Nat)),
    (bumpNested l w h).map Prod.fst =
      if w ∈ l.map Prod.fst then l.map Prod.fst else l.map Prod.fst ++ [w] := by
  intro l
  induction l with
  | nil => simp [bumpNested]
  | cons kv rest ih =>
    obtain ⟨a, inner⟩ := kv
    by_cases hwa : w = a
    · subst hwa
      simp [bumpNested]
    · simp only [bumpNested, if_neg hwa, List.map_cons, List.mem_cons, ih]
      by_cases hm : w ∈ rest.map Prod.fst
      · simp [hm]
      · simp [hm, hwa]

theorem mem_props_bumpNested (w h : Nat) : ∀ l : List (Nat × List (Nat × Nat)),
    (∀ p ∈ l, (p.2.map Prod.fst).Nodup ∧ p.2 ≠ [] ∧ ∀ q ∈ p.2, 0 < q.2) →
    ∀ p ∈ bumpNested l w h,
      (p.2.map Prod.fst).Nodup ∧ p.2 ≠ [] ∧ ∀ q ∈ p.2, 0 < q.2 := by
  intro l
  induction l with
  | nil =>
    intro _ p hp
    simp only [bumpNested, List.mem_singleton] at hp
    subst hp
    refine ⟨by simp, by simp, ?_⟩
    intro q hq
    simp only [List.mem_singleton] at hq
    subst hq
    exact Nat.zero_lt_one
  | cons kv rest ih =>
    obtain ⟨a, inner⟩ := kv
    intro hl p hp
    have hhead := hl _ (List.mem_cons_self _ _)
    have htail : ∀ p ∈ rest, (p.2.map Prod.fst).Nodup ∧ p.2 ≠ [] ∧ ∀ q ∈ p.2, 0 < q.2 :=
      fun p hp => hl p (List.mem_cons_of_mem _ hp)
    by_cases hwa : w = a
    · subst hwa
      rw [bumpNested, if_pos rfl] at hp
      rcases List.mem_cons.mp hp with hx | hx
      · subst hx
        exact ⟨nodup_bumpA h hhead.1, bumpA_ne_nil _ _, pos_bumpA h hhead.2.2⟩
      · exact htail _ hx
    · rw [bumpNested, if_neg hwa] at hp
      rcases List.mem_cons.mp hp with hx | hx
      · subst hx
        exact hhead
      · exact ih htail _ hx

theorem nestedOK_bumpNested {l : List (Nat × List (Nat × Nat))} (w h : Nat)
    (hl : NestedOK l) : NestedOK (bumpNested l w h) := by
  refine ⟨?_, mem_props_bumpNested w h l hl.2⟩
  rw [keys_bumpNested]
  by_cases hm : w ∈ l.map Prod.fst
  · simpa [hm] using hl.1
  · simp [hm, List.nodup_append, hl.1]

theorem getInner_mem {l : List (Nat × List (Nat × Nat))} {w : Nat}
    {inner : List (Nat × Nat)} (h : getInner l w = some inner) : (w, inner) ∈ l := by
  induction l with
  | nil => simp [getInner] at h
  | cons kv rest ih =>
    obtain ⟨a, b⟩ := kv
    by_cases hw : w = a
    · subst hw
      rw [getInner, if_pos rfl] at h
      simp only [Option.some.injEq] at h
      subst h
      exact List.mem_cons_self _ _
    · rw [getInner, if_neg hw] at h
      exact List.mem_cons_of_mem _ (ih h)

theorem agg_counts_nodup (rs : List ParsedRecord) :
    ∀ st, (st.1.map Prod.fst).Nodup → (((rs.foldl aggStep st).1).map Prod.fst).Nodup := by
  induction rs with
  | nil => intro st h; simpa using h
  | cons r rs ih =>
    intro st h
    rw [List.foldl_cons]
    exact ih _ (nodup_bumpA _ h)

theorem agg_nested_ok (rs : List ParsedRecord) :
    ∀ st, NestedOK st.2 → NestedOK ((rs.foldl aggStep st).2) := by
  induction rs with
  | nil => intro st h; simpa using h
  | cons r rs ih =>
    intro st h
    rw [List.foldl_cons]
    exact ih _ (nestedOK_bumpNested _ _ h)

theorem analysis_counts_nodup (rs : List ParsedRecord) :
    (((analyze_by_weekday_and_time rs).weekday_counts).map Prod.fst).Nodup := by
  rw [analyze_by_weekday_and_time]
  exact agg_counts_nodup rs ([], []) (by simp)

theorem analysis_nested_ok (rs : List ParsedRecord) :
    NestedOK (analyze_by_weekday_and_time rs).weekday_hours := by
  rw [analyze_by_weekday_and_time]
  exact agg_nested_ok rs ([], []) ⟨by simp, by simp⟩


/-- C5 counterexample: with a single Monday record, `min(weekday_counts, ...)`
reports Monday with count 1, but weekday index 1 (Tuesday) has total count 0,
so the reported quietest count is not ≤ the total of every weekday 0..6: the
minimum ranges only over weekdays that appear in the records. -/
theorem c5_counterexample :
    rsC5 ≠ [] ∧
    quietest_weekday rsC5 = some (0, 1) ∧
    weekdayTotal rsC5 1 = 0 ∧
    ¬ (1 ≤ weekdayTotal rsC5 1) := by decide

/-- C5 (amended): for a nonempty record list, the busiest weekday's reported
count is ≥ the total count of every weekday index 0..6, and the quietest
weekday's reported count is ≤ the total count of every weekday that has at
least one record (the minimum is taken only over weekdays present in the
counts dictionary); both reported counts agree with the weekday totals. -/
theorem c5_busiest_quietest (datetime_list : List ParsedRecord)
    (hne : datetime_list ≠ []) :
    ∃ bw bc qw qc,
      busiest_weekday datetime_list = some (bw, bc) ∧
      quietest_weekday datetime_list = some (qw, qc) ∧
      bc = weekdayTotal datetime_list bw ∧
      qc = weekdayTotal datetime_list qw ∧
      (∀ w, weekdayTotal datetime_list w ≤ bc) ∧
      (∀ w, 0 < weekdayTotal datetime_list w → qc ≤ weekdayTotal datetime_list w) := by
  have hsum : sumVals (analyze_by_weekday_and_time datetime_list).weekday_counts =
      datetime_list.length := by
    rw [analyze_by_weekday_and_time]
    simpa [sumVals] using agg_counts_sum datetime_list ([], [])
  have hcne : (analyze_by_weekday_and_time datetime_list).weekday_counts ≠ [] := by
    intro hc
    rw [hc] at hsum
    simp [sumVals] at hsum
    exact hne (List.eq_nil_of_length_eq_zero hsum.symm)
  have hnd := analysis_counts_nodup datetime_list
  obtain ⟨⟨bw, bc⟩, hbm⟩ :=
    Option.ne_none_iff_exists'.mp
      (fun hc => hcne (argmaxFirst_eq_none.mp hc))
  obtain ⟨⟨qw, qc⟩, hqm⟩ :=
    Option.ne_none_iff_exists'.mp
      (fun hc => hcne (argminFirst_eq_none.mp hc))
  obtain ⟨hbmem, hbub⟩ := argmaxFirst_spec hbm
  obtain ⟨hqmem, hqlb⟩ := argminFirst_spec hqm
  refine ⟨bw, bc, qw, qc, hbm, hqm, ?_, ?_, ?_, ?_⟩
  · exact (getVal_of_mem_nodup hnd hbmem).symm
  · exact (getVal_of_mem_nodup hnd hqmem).symm
  · intro w
    by_cases hz : weekdayTotal datetime_list w = 0
    · rw [hz]
      exact Nat.zero_le _
    · exact hbub _ (getVal_mem_of_ne_zero hz)
  · intro w hw
    exact hqlb _ (getVal_mem_of_ne_zero (Nat.pos_iff_ne_zero.mp hw))

theorem c5_witness :
    rsC5 ≠ [] ∧
    (∃ bw bc qw qc,
      busiest_weekday rsC5 = some (bw, bc) ∧
      quietest_weekday rsC5 = some (qw, qc) ∧
      bc = weekdayTotal rsC5 bw ∧
      qc = weekdayTotal rsC5 qw ∧
      (∀ w, weekdayTotal rsC5 w ≤ bc) ∧
      (∀ w, 0 < weekdayTotal rsC5 w → qc ≤ weekdayTotal rsC5 w)) :=
  ⟨by decide, c5_busiest_quietest rsC5 (by decide)⟩


theorem peak_line_mem {datetime_list : List ParsedRecord} {w ph pc : Nat}
    {act : List Nat} :
    (w, ph, pc, act) ∈ peak_hour_lines datetime_list ↔
      w < 7 ∧ argmaxFirst (hrsOf datetime_list w) = some (ph, pc) ∧
      act = (((hrsOf datetime_list w).filter (fun kv => 0 < kv.2)).map
        (fun kv => kv.1)).insertionSort (· ≤ ·) := by
  rw [peak_hour_lines, List.mem_filterMap]
  constructor
  · rintro ⟨a, ha, hfa⟩
    simp only at hfa
    cases hm : argmaxFirst (hrsOf datetime_list a) with
    | none =>
      rw [hm] at hfa
      simp at hfa
    | some b =>
      obtain ⟨b1, b2⟩ := b
      rw [hm] at hfa
      simp only [Option.some.injEq, Prod.mk.injEq] at hfa
      obtain ⟨haw, hb1, hb2, hact⟩ := hfa
      subst haw
      subst hb1
      subst hb2
      exact ⟨List.mem_range.mp ha, hm, hact.symm⟩
  · rintro ⟨hw7, hm, hact⟩
    refine ⟨w, List.mem_range.mpr hw7, ?_⟩
    simp only
    rw [hm, hact]

theorem hrsOf_props {datetime_list : List ParsedRecord} {w : Nat}
    (hne : hrsOf datetime_list w ≠ []) :
    ((hrsOf datetime_list w).map Prod.fst).Nodup ∧
    ∀ q ∈ hrsOf datetime_list w, 0 < q.2 := by
  rw [hrsOf] at hne ⊢
  cases hg : getInner (analyze_by_weekday_and_time datetime_list).weekday_hours w with
  | none => rw [hg] at hne; simp at hne
  | some inner =>
    simp only [Option.getD_some]
    have hm := getInner_mem hg
    have hp := (analysis_nested_ok datetime_list).2 _ hm
    exact ⟨hp.1, hp.2.2⟩

theorem hourCount_countP (datetime_list : List ParsedRecord) (w h : Nat) :
    hourCount datetime_list w h =
      datetime_list.countP (fun r => weekdayOf r == w && r.datetime.hour == h) := by
  rw [hourCount, hrsOf, analyze_by_weekday_and_time]
  simpa [getInner, getVal] using agg_hours_getVal w h datetime_list ([], [])

theorem hrsOf_ne_nil_iff {datetime_list : List ParsedRecord} {w : Nat} :
    hrsOf datetime_list w ≠ [] ↔ ∃ r ∈ datetime_list, weekdayOf r = w := by
  constructor
  · intro hne
    obtain ⟨hnd, hpos⟩ := hrsOf_props hne
    obtain ⟨⟨h0, v0⟩, hhead⟩ := List.exists_mem_of_ne_nil _ hne
    have hv0 : getVal (hrsOf datetime_list w) h0 = v0 := getVal_of_mem_nodup hnd hhead
    have hcp : 0 < datetime_list.countP
        (fun r => weekdayOf r == w && r.datetime.hour == h0) := by
      rw [← hourCount_countP, hourCount, hv0]
      exact hpos _ hhead
    obtain ⟨r, hr, hpr⟩ := List.countP_pos_iff.mp hcp
    simp only [Bool.and_eq_true, beq_iff_eq] at hpr
    exact ⟨r, hr, hpr.1⟩
  · rintro ⟨r, hr, hw⟩
    intro hnil
    have hcp : 0 < datetime_list.countP
        (fun r' => weekdayOf r' == w && r'.datetime.hour == r.datetime.hour) :=
      List.countP_pos_iff.mpr ⟨r, hr, by simp [hw]⟩
    rw [← hourCount_countP, hourCount, hnil] at hcp
    simp [getVal] at hcp

/-- C6: a peak-hour line is produced exactly for the weekdays having at least
one record; on such a line the peak hour's count dominates every hour of that
weekday, the peak hour is the first hour in the aggregation's iteration order
attaining that count, and the active-hours list is the sorted list of exactly
the hours with nonzero activity on that weekday. -/
theorem c6_peak_hour_lines_spec (datetime_list : List ParsedRecord) (w : Nat) :
    ((∃ x ∈ peak_hour_lines datetime_list, x.1 = w) ↔
      (w < 7 ∧ ∃ r ∈ datetime_list, weekdayOf r = w)) ∧
    (∀ ph pc act, (w, ph, pc, act) ∈ peak_hour_lines datetime_list →
      pc = hourCount datetime_list w ph ∧
      (∀ h, hourCount datetime_list w h ≤ pc) ∧
      (∃ l1 l2, hrsOf datetime_list w = l1 ++ (ph, pc) :: l2 ∧ ∀ kv ∈ l1, kv.2 < pc) ∧
      List.Sorted (· ≤ ·) act ∧
      (∀ h, h ∈ act ↔ 0 < hourCount datetime_list w h)) := by
  constructor
  · constructor
    · rintro ⟨⟨w', ph, pc, act⟩, hx, hxw⟩
      simp only at hxw
      subst hxw
      obtain ⟨hw7, hm, _⟩ := peak_line_mem.mp hx
      refine ⟨hw7, hrsOf_ne_nil_iff.mp ?_⟩
      intro hnil
      rw [hnil] at hm
      simp [argmaxFirst] at hm
    · rintro ⟨hw7, hex⟩
      have hne := hrsOf_ne_nil_iff.mpr hex
      cases hm : argmaxFirst (hrsOf datetime_list w) with
      | none => exact absurd (argmaxFirst_eq_none.mp hm) hne
      | some b =>
        obtain ⟨ph, pc⟩ := b
        exact ⟨(w, ph, pc, _), peak_line_mem.mpr ⟨hw7, hm, rfl⟩, rfl⟩
  · intro ph pc act hx
    obtain ⟨hw7, hm, hact⟩ := peak_line_mem.mp hx
    have hne : hrsOf datetime_list w ≠ [] := by
      intro hnil
      rw [hnil] at hm
      simp [argmaxFirst] at hm
    obtain ⟨hnd, hpos⟩ := hrsOf_props hne
    obtain ⟨hmem, hub⟩ := argmaxFirst_spec hm
    have hpc : hourCount datetime_list w ph = pc := by
      rw [hourCount]
      exact getVal_of_mem_nodup hnd hmem
    refine ⟨hpc.symm, ?_, argmaxFirst_first hm, ?_, ?_⟩
    · intro h
      by_cases hz : hourCount datetime_list w h = 0
      · rw [hz]
        exact Nat.zero_le _
      · rw [hourCount] at hz ⊢
        exact hub _ (getVal_mem_of_ne_zero hz)
    · rw [hact]
      exact List.sorted_insertionSort _ _
    · intro h
      rw [hact, (List.perm_insertionSort _ _).mem_iff, List.mem_map]
      constructor
      · rintro ⟨⟨h', v'⟩, hmem', rfl⟩
        rw [List.mem_filter] at hmem'
        have : getVal (hrsOf datetime_list w) h' = v' :=
          getVal_of_mem_nodup hnd hmem'.1
        rw [hourCount, this]
        simpa using hmem'.2
      · intro hpos'
        rw [hourCount] at hpos'
        refine ⟨(h, getVal (hrsOf datetime_list w) h),
          List.mem_filter.mpr ⟨getVal_mem_of_ne_zero (Nat.pos_iff_ne_zero.mp hpos'), ?_⟩, rfl⟩
        simpa using hpos'


theorem lexLe_total : ∀ as bs : List Char, lexLe as bs = true ∨ lexLe bs as = true := by
  intro as
  induction as with
  | nil => intro bs; left; simp [lexLe]
  | cons a as ih =>
    intro bs
    cases bs with
    | nil => right; simp [lexLe]
    | cons b bs =>
      by_cases hab : a = b
      · subst hab
        simp only [lexLe, if_pos rfl]
        exact ih bs
      · rcases lt_or_gt_of_ne hab with h | h
        · left
          simp [lexLe, hab, h]
        · right
          simp [lexLe, Ne.symm hab, h]

theorem lexLe_trans : ∀ as bs cs : List Char,
    lexLe as bs = true → lexLe bs cs = true → lexLe as cs = true := by
  intro as
  induction as with
  | nil => intro bs cs _ _; simp [lexLe]
  | cons a as ih =>
    intro bs cs hab hbc
    cases bs with
    | nil => simp [lexLe] at hab
    | cons b bs =>
      cases cs with
      | nil => simp [lexLe] at hbc
      | cons c cs =>
        by_cases h1 : a = b
        · subst h1
          rw [lexLe, if_pos rfl] at hab
          by_cases h2 : a = c
          · subst h2
            rw [lexLe, if_pos rfl] at hbc ⊢
            exact ih bs cs hab hbc
          · rw [lexLe, if_neg h2] at hbc ⊢
            exact hbc
        · rw [lexLe, if_neg h1] at hab
          rw [decide_eq_true_iff] at hab
          by_cases h2 : b = c
          · subst h2
            rw [lexLe, if_neg h1]
            simp [hab]
          · rw [lexLe, if_neg h2, decide_eq_true_iff] at hbc
            have hac : a < c := lt_trans hab hbc
            have hne : a ≠ c := fun hc => lt_irrefl b (lt_trans hbc (hc ▸ hab))
            rw [lexLe, if_neg hne, decide_eq_true_iff]
            exact hac

theorem lexLe_antisymm : ∀ as bs : List Char,
    lexLe as bs = true → lexLe bs as = true → as = bs := by
  intro as
  induction as with
  | nil =>
    intro bs hab _
    cases bs with
    | nil => rfl
    | cons b bs => simp [lexLe] at *
  | cons a as ih =>
    intro bs hab hba
    cases bs with
    | nil => simp [lexLe] at hab
    | cons b bs =>
      by_cases h1 : a = b
      · subst h1
        rw [lexLe, if_pos rfl] at hab hba
        rw [ih bs hab hba]
      · rw [lexLe, if_neg h1, decide_eq_true_iff] at hab
        rw [lexLe, if_neg (Ne.symm h1), decide_eq_true_iff] at hba
        exact absurd (lt_trans hab hba) (lt_irrefl a)

instance : IsTotal String strLeR :=
  ⟨fun a b => lexLe_total a.data b.data⟩

instance : IsTrans String strLeR :=
  ⟨fun a b c => lexLe_trans a.data b.data c.data⟩

instance : IsAntisymm String strLeR :=
  ⟨fun a b h1 h2 => by
    have hd := lexLe_antisymm a.data b.data h1 h2
    cases a
    cases b
    exact congrArg String.mk (by simpa using hd)⟩


theorem filterMap_extract_filenames : ∀ files : List String,
    (files.filterMap extract_datetime_from_filename).map (fun r => r.filename) =
      files.filter (fun n => (extract_datetime_from_filename n).isSome) := by
  intro files
  induction files with
  | nil => simp
  | cons n files ih =>
    cases h : extract_datetime_from_filename n with
    | none => simp [List.filterMap_cons, List.filter_cons, h, ih]
    | some r =>
      simp [List.filterMap_cons, List.filter_cons, h, ih, (extract_some_spec h).1]

theorem read_perm_eq (folder_path : String) (f g : Folder)
    (hperm : f.entries.Perm g.entries) (hdirs : f.dirs = g.dirs) :
    read_images_from_folder folder_path (some f) =
      read_images_from_folder folder_path (some g) := by
  have hsort : List.insertionSort strLeR f.entries = List.insertionSort strLeR g.entries :=
    List.eq_of_perm_of_sorted
      (((List.perm_insertionSort strLeR f.entries).trans hperm).trans
        (List.perm_insertionSort strLeR g.entries).symm)
      (List.sorted_insertionSort strLeR f.entries)
      (List.sorted_insertionSort strLeR g.entries)
  simp only [read_images_from_folder, hsort, hdirs]

theorem read_records_sorted (folder_path : String) (f : Folder) :
    List.Sorted strLeR
      ((read_images_from_folder folder_path (some f)).1.map (fun r => r.filename)) := by
  have hdef : (read_images_from_folder folder_path (some f)).1 =
      ((List.insertionSort strLeR f.entries).filter
        (fun n => !f.dirs.contains n)).filterMap extract_datetime_from_filename := rfl
  rw [hdef, filterMap_extract_filenames]
  exact ((List.sorted_insertionSort strLeR f.entries).filter _).filter _

/-- C3: for an existing directory the reader returns exactly the records of
the non-directory entry names that parse successfully, in lexicographic
filename order, and the result does not depend on the order in which the
directory listing presented the entries. -/
theorem c3_folder_reader_sorted (folder_path : String) (f g : Folder)
    (hperm : f.entries.Perm g.entries) (hdirs : f.dirs = g.dirs) :
    (read_images_from_folder folder_path (some f)).1 =
      (read_images_from_folder folder_path (some g)).1 ∧
    (read_images_from_folder folder_path (some f)).1 =
      ((List.insertionSort strLeR f.entries).filter
        (fun n => !f.dirs.contains n)).filterMap extract_datetime_from_filename ∧
    List.Sorted strLeR
      ((read_images_from_folder folder_path (some f)).1.map (fun r => r.filename)) :=
  ⟨congrArg Prod.fst (read_perm_eq folder_path f g hperm hdirs), rfl,
   read_records_sorted folder_path f⟩

theorem c3_witness :
    folderA.entries.Perm folderB.entries ∧
    folderA.dirs = folderB.dirs ∧
    ((read_images_from_folder "images" (some folderA)).1 =
        (read_images_from_folder "images" (some folderB)).1 ∧
      (read_images_from_folder "images" (some folderA)).1 =
        ((List.insertionSort strLeR folderA.entries).filter
          (fun n => !folderA.dirs.contains n)).filterMap extract_datetime_from_filename ∧
      List.Sorted strLeR
        ((read_images_from_folder "images" (some folderA)).1.map (fun r => r.filename))) :=
  ⟨List.Perm.swap _ _ _, rfl,
   c3_folder_reader_sorted "images" folderA folderB (List.Perm.swap _ _ _) rfl⟩

/-- C8: the pipeline's data artifacts (records, aggregation, CSV lines and
bytes) are a pure function of the directory contents: re-running on an
unchanged directory, however its entries happen to be listed, yields
identical aggregates and byte-identical CSV; the CSV consists of the header
`filename,date,time,datetime` and one row per record with the `datetime`
column rendered `YYYY-MM-DD HH:MM:SS`. -/
theorem c8_pipeline_deterministic (folder_path : String) (f g : Folder)
    (hperm : f.entries.Perm g.entries) (hdirs : f.dirs = g.dirs) :
    run_pipeline folder_path (some f) = run_pipeline folder_path (some g) ∧
    csv_content (read_images_from_folder folder_path (some f)).1 =
      csv_content (read_images_from_folder folder_path (some g)).1 ∧
    (∀ rs : List ParsedRecord,
      csv_lines rs = "filename,date,time,datetime" :: rs.map csv_row) ∧
    (∀ r : ParsedRecord,
      csv_row r = csvField r.filename ++ "," ++ csvField r.date_str ++ "," ++
        csvField r.time_str ++ "," ++
        csvField (formatDate r.datetime ++ " " ++ formatTime r.datetime)) := by
  have h := read_perm_eq folder_path f g hperm hdirs
  refine ⟨?_, ?_, fun rs => rfl, fun r => rfl⟩
  · rw [run_pipeline, run_pipeline, h]
  · rw [h]

theorem c8_witness :
    folderA.entries.Perm folderB.entries ∧
    folderA.dirs = folderB.dirs ∧
    run_pipeline "images" (some folderA) = run_pipeline "images" (some folderB) ∧
    csv_content (read_images_from_folder "images" (some folderA)).1 =
      csv_content (read_images_from_folder "images" (some folderB)).1 :=
  ⟨List.Perm.swap _ _ _, rfl,
   (c8_pipeline_deterministic "images" folderA folderB (List.Perm.swap _ _ _) rfl).1,
   (c8_pipeline_deterministic "images" folderA folderB (List.Perm.swap _ _ _) rfl).2.1⟩


theorem c6_witness :
    ((∃ x ∈ peak_hour_lines rsC6, x.1 = 0) ↔ (0 < 7 ∧ ∃ r ∈ rsC6, weekdayOf r = 0)) ∧
    (0, 8, 1, [8, 14]) ∈ peak_hour_lines rsC6 ∧
    (1 = hourCount rsC6 0 8 ∧
      (∀ h, hourCount rsC6 0 h ≤ 1) ∧
      (∃ l1 l2, hrsOf rsC6 0 = l1 ++ (8, 1) :: l2 ∧ ∀ kv ∈ l1, kv.2 < 1) ∧
      List.Sorted (· ≤ ·) [8, 14] ∧
      (∀ h, h ∈ [8, 14] ↔ 0 < hourCount rsC6 0 h)) :=
  ⟨(c6_peak_hour_lines_spec rsC6 0).1, by decide,
   (c6_peak_hour_lines_spec rsC6 0).2 8 1 [8, 14] (by decide)⟩
